import Mathlib

/-!
Verification of the in-memory inventory core of the Invent-rioMMulheres
application.  The definitions below are a shallow embedding of the
JavaScript modules of the repository:

* data.js (src/unnamed/part_004): the Inventario module holding the asset
  collection, the registration marks (bipagens), the bounded history log,
  the hash indices and the statistics cache;
* utils.js (src/js/utils.js): the string sanitizer applied to every
  imported record and the search normalizer;
* csv.js (src/unnamed/part_003) and app.js / main.js: callers, consulted
  only to fix calling conventions.

JavaScript strings are modelled as lists of characters, JavaScript objects
and Map values as association lists in insertion order, and clock reads as
explicit parameters.  Timestamps (ISO date strings produced and compared
through Date) are modelled by natural numbers ordered as the instants they
denote.  Persistence (the Storage module) is modelled by a write-event
trace carried in the state.
-/

/-- The JavaScript string method trim on a list of characters: removes
leading and trailing whitespace.  Left part. -/
def trimLeft (l : List Char) : List Char := l.dropWhile Char.isWhitespace

/-- Right part of trim: removes trailing whitespace. -/
def trimRight (l : List Char) : List Char := (l.reverse.dropWhile Char.isWhitespace).reverse

/-- The JavaScript string method trim. -/
def jsTrim (l : List Char) : List Char := trimRight (trimLeft l)

/-- The JavaScript string method toUpperCase, on the character range the
repository uses. -/
def jsUpper (l : List Char) : List Char := l.map Char.toUpper

/-- One character of a text node as serialized back by the DOM idiom
used in utils.js sanitizar (assigning textContent and reading innerHTML
escapes the HTML metacharacters and the non-breaking space). -/
def escapeHtmlChar (c : Char) : List Char :=
  if c = '&' then ['&', 'a', 'm', 'p', ';']
  else if c = '<' then ['&', 'l', 't', ';']
  else if c = '>' then ['&', 'g', 't', ';']
  else if c = Char.ofNat 160 then ['&', 'n', 'b', 's', 'p', ';']
  else [c]

/-- HTML escaping of a whole string, as performed by the temporary div
element in utils.js sanitizar. -/
def escapeHtml (l : List Char) : List Char := l.foldr (fun c acc => escapeHtmlChar c ++ acc) []

/-- One left-to-right pass removing every case-insensitive occurrence of
the literal pattern p :: ps, as the global regex replace in utils.js
sanitizar does (the scan resumes after the removed match and never
rescans).  The fuel argument bounds the recursion by the input length. -/
def removeMatchesAux (p : Char) (ps : List Char) : Nat → List Char → List Char
  | 0, l => l
  | _ + 1, [] => []
  | fuel + 1, c :: rest =>
    if ((c :: rest).take (ps.length + 1)).map Char.toLower = p :: ps then
      removeMatchesAux p ps fuel ((c :: rest).drop (ps.length + 1))
    else
      c :: removeMatchesAux p ps fuel rest

/-- Removes every case-insensitive occurrence of a nonempty literal
pattern, scanning left to right. -/
def removeMatches (p : Char) (ps : List Char) (l : List Char) : List Char :=
  removeMatchesAux p ps l.length l

/-- Word character of the regex class used in utils.js sanitizar. -/
def isWordChar (c : Char) : Bool := c.isAlphanum || c = '_'

/-- One left-to-right pass of the global regex replace removing inline
event-handler fragments (the pattern on followed by word characters and
an equals sign, case-insensitive) in utils.js sanitizar.  The fuel
argument bounds the recursion by the input length. -/
def removeOnAttrAux : Nat → List Char → List Char
  | 0, l => l
  | _ + 1, [] => []
  | fuel + 1, c1 :: rest =>
    match rest with
    | [] => [c1]
    | c2 :: rest2 =>
      if c1.toLower = 'o' ∧ c2.toLower = 'n' then
        let w := rest2.takeWhile isWordChar
        let after := rest2.dropWhile isWordChar
        if w ≠ [] ∧ after.head? = some '=' then
          removeOnAttrAux fuel after.tail
        else
          c1 :: removeOnAttrAux fuel rest
      else
        c1 :: removeOnAttrAux fuel rest

/-- Removal of inline event-handler fragments. -/
def removeOnAttr (l : List Char) : List Char := removeOnAttrAux l.length l

/-- utils.js sanitizar: HTML-escapes the string through a detached DOM
element, strips javascript: URLs and inline event-handler fragments, and
finally trims. -/
def sanitizar (l : List Char) : List Char :=
  jsTrim (removeOnAttr (removeMatches 'j'
    ['a', 'v', 'a', 's', 'c', 'r', 'i', 'p', 't', ':'] (escapeHtml l)))

/-- utils.js normalizar: lowercases and strips the combining-accent range
(the NFD decomposition step is the identity on the already decomposed
code points modelled here). -/
def normalizar (l : List Char) : List Char :=
  (l.map Char.toLower).filter (fun c => decide (c.toNat < 768) || decide (879 < c.toNat))

/-- An asset record, with the string fields the core reads or exports
(data.js and csv.js).  Absent fields are the empty string, matching the
falsy defaulting the code applies to them. -/
structure Item where
  patrimonio : List Char
  codigo_item : List Char
  descricao : List Char
  categoria : List Char
  valor : List Char
  uorg_destino : List Char
  coordenacao_destino : List Char
  localidade : List Char
deriving DecidableEq, Repr

/-- Convenience constructor: an item given patrimonio, uorg_destino,
coordenacao_destino and descricao, all other fields blank. -/
def mkItem (pat uorg coord desc : List Char) : Item :=
  ⟨pat, [], desc, [], [], uorg, coord, []⟩

/-- utils.js sanitizarObjeto: sanitizes every field of a record. -/
def sanitizarObjeto (i : Item) : Item :=
  ⟨sanitizar i.patrimonio, sanitizar i.codigo_item, sanitizar i.descricao,
   sanitizar i.categoria, sanitizar i.valor, sanitizar i.uorg_destino,
   sanitizar i.coordenacao_destino, sanitizar i.localidade⟩

/-- The JavaScript string method includes: the search term occurs as a
contiguous substring. -/
def jsIncludes (l termo : List Char) : Bool := decide (termo <:+: l)

/-- Outcome object returned by registrarBipagem (data.js lines 270 to 311).
The three constructors carry exactly the data-bearing fields of the three
JavaScript result objects; the constant message strings are omitted.  The
naoEncontrado outcome attaches no item. -/
inductive Resultado
  | naoEncontrado (patrimonio : List Char) (timestamp : Nat)
  | jaBipado (patrimonio : List Char) (item : Item) (dataBipagem : Nat) (timestamp : Nat)
  | sucesso (patrimonio : List Char) (item : Item) (timestamp : Nat)
deriving DecidableEq, Repr

/-- The statistics cache (data.js lines 36 to 42). -/
structure Estatisticas where
  total : Nat
  localizados : Nat
  pendentes : Nat
  bipados : Nat
  percentual : Nat
deriving DecidableEq, Repr

/-- Persistence calls issued to the Storage module, recorded as a trace. -/
inductive WriteEvent
  | salvarInventario (itens : List Item)
  | salvarBipagens (bipagens : List (List Char × Nat))
  | salvarHistorico (historico : List Resultado)
  | storageLimparBipagens
  | storageLimparTudo
deriving DecidableEq, Repr

/-- Lookup in a string-keyed JavaScript object or Map, modelled as an
association list in insertion order. -/
def getKey {β : Type} (m : List (List Char × β)) (k : List Char) : Option β :=
  match m with
  | [] => none
  | (k2, v) :: rest => if k2 = k then some v else getKey rest k

/-- Assignment in a string-keyed JavaScript object or Map: replaces the
value of an existing key in place, appends a new key at the end. -/
def setKey {β : Type} (m : List (List Char × β)) (k : List Char) (v : β) :
    List (List Char × β) :=
  match m with
  | [] => [(k, v)]
  | (k2, v2) :: rest => if k2 = k then (k2, v) :: rest else (k2, v2) :: setKey rest k v

/-- The get-or-create-then-push idiom of the grouping index (data.js lines
90 to 95): appends the item to the bucket of the key, creating the bucket
at the end of the map when absent. -/
def pushKey (m : List (List Char × List Item)) (k : List Char) (x : Item) :
    List (List Char × List Item) :=
  match m with
  | [] => [(k, [x])]
  | (k2, l) :: rest => if k2 = k then (k2, l ++ [x]) :: rest else (k2, l) :: pushKey rest k x

/-- The whole mutable module state of data.js, together with the trace of
persistence writes. -/
structure InvState where
  itens : List Item
  bipagens : List (List Char × Nat)
  historico : List Resultado
  indexPatrimonio : List (List Char × Item)
  indexPorCoordenacao : List (List Char × List Item)
  listaLocalizados : List Item
  listaPendentes : List Item
  listaBipados : List Item
  estatisticas : Estatisticas
  writes : List WriteEvent
deriving DecidableEq, Repr

/-- The initial module state (data.js lines 14 to 42). -/
def estadoInicial : InvState := ⟨[], [], [], [], [], [], [], [], ⟨0, 0, 0, 0, 0⟩, []⟩

/-- data.js line 98: the destination-unit field is present and non-blank
after trimming. -/
def temUorg (i : Item) : Bool := !i.uorg_destino.isEmpty && !(jsTrim i.uorg_destino).isEmpty

/-- Boolean lexicographic order on strings, the order localeCompare
induces on the plain identifiers the repository sorts. -/
def lexLe : List Char → List Char → Bool
  | [], _ => true
  | _ :: _, [] => false
  | a :: as, b :: bs => if a < b then true else if b < a then false else lexLe as bs

/-- Comparator relation of the localizados and pendentes sorts (data.js
lines 112 and 113): ascending by patrimonio. -/
def patLe (a b : Item) : Prop := lexLe a.patrimonio b.patrimonio = true

instance : DecidableRel patLe := fun a b => by unfold patLe; infer_instance

/-- Registration timestamp of an item under a mark map, as read by the
bipados comparator (data.js lines 114 to 118).  Every member of the
sorted list carries a mark, so the default is never consulted. -/
def dataDe (bip : List (List Char × Nat)) (i : Item) : Nat :=
  (getKey bip i.patrimonio).getD 0

/-- Comparator relation of the bipados sort: an item precedes another when
its registration timestamp is at least as recent, so the sorted list is
descending by timestamp. -/
def bipLe (bip : List (List Char × Nat)) (a b : Item) : Prop :=
  dataDe bip b ≤ dataDe bip a

instance (bip : List (List Char × Nat)) : DecidableRel (bipLe bip) := fun a b => by
  unfold bipLe; infer_instance

/-- The five index structures rebuilt by reconstruirIndices. -/
structure Indices where
  indexPatrimonio : List (List Char × Item)
  indexPorCoordenacao : List (List Char × List Item)
  listaLocalizados : List Item
  listaPendentes : List Item
  listaBipados : List Item
deriving DecidableEq, Repr

/-- One iteration of the single rebuild pass (data.js lines 82 to 109):
indexes the item under its uppercased patrimonio, appends it to the
grouping bucket of its trimmed coordenacao_destino when non-blank,
appends it to exactly one of the localizados and pendentes lists, and to
the bipados list when a registration mark exists for its patrimonio. -/
def rebuildStep (bip : List (List Char × Nat)) (acc : Indices) (item : Item) : Indices :=
  let patrimonioUpper := jsUpper item.patrimonio
  let acc1 := { acc with indexPatrimonio := setKey acc.indexPatrimonio patrimonioUpper item }
  let coord := jsTrim item.coordenacao_destino
  let acc2 :=
    if coord ≠ [] then
      { acc1 with indexPorCoordenacao := pushKey acc1.indexPorCoordenacao coord item }
    else acc1
  let acc3 :=
    if temUorg item then { acc2 with listaLocalizados := acc2.listaLocalizados ++ [item] }
    else { acc2 with listaPendentes := acc2.listaPendentes ++ [item] }
  if (getKey bip item.patrimonio).isSome then
    { acc3 with listaBipados := acc3.listaBipados ++ [item] }
  else acc3

/-- Exact-rational model of the JavaScript expression
Math.round((l / t) * 100) on natural counts: the half-up rounding of the
rational 100 l / t. -/
def mathRound100 (l t : Nat) : Nat := (200 * l + t) / (2 * t)

/-- data.js lines 127 to 135: recomputes the statistics cache from the
collection, the two partition lists and the mark map. -/
def atualizarEstatisticas (s : InvState) : Estatisticas :=
  { total := s.itens.length
    localizados := s.listaLocalizados.length
    pendentes := s.listaPendentes.length
    bipados := s.bipagens.length
    percentual :=
      if s.itens.length > 0 then mathRound100 s.listaLocalizados.length s.itens.length
      else 0 }

/-- data.js lines 73 to 122: clears and rebuilds all indices in one pass
over the collection, then sorts the three partition lists.  The stable
sort of JavaScript arrays applied to a total preorder comparator has a
unique result, modelled here by insertion sort. -/
def reconstruirIndices (s : InvState) : InvState :=
  let acc := s.itens.foldl (rebuildStep s.bipagens) ⟨[], [], [], [], []⟩
  let s1 := { s with
    indexPatrimonio := acc.indexPatrimonio
    indexPorCoordenacao := acc.indexPorCoordenacao
    listaLocalizados := List.insertionSort patLe acc.listaLocalizados
    listaPendentes := List.insertionSort patLe acc.listaPendentes
    listaBipados := List.insertionSort (bipLe s.bipagens) acc.listaBipados }
  { s1 with estatisticas := atualizarEstatisticas s1 }

/-- The summary counts returned by importar (data.js lines 153 to 157). -/
structure ResumoImportacao where
  total : Nat
  localizados : Nat
  pendentes : Nat
deriving DecidableEq, Repr

/-- data.js lines 143 to 158: replaces the collection with the sanitized
records, persists it, rebuilds the indices and returns the summary. -/
def importar (s : InvState) (novosItens : List Item) : InvState × ResumoImportacao :=
  let itens1 := novosItens.map sanitizarObjeto
  let s1 := { s with itens := itens1, writes := s.writes ++ [WriteEvent.salvarInventario itens1] }
  let s2 := reconstruirIndices s1
  (s2, ⟨itens1.length, s2.estatisticas.localizados, s2.estatisticas.pendentes⟩)

/-- data.js lines 167 to 171: returns null on a falsy argument, otherwise
looks the trimmed uppercased argument up in the primary index. -/
def buscarPorPatrimonio (s : InvState) (patrimonio : List Char) : Option Item :=
  if patrimonio = [] then none
  else getKey s.indexPatrimonio (jsUpper (jsTrim patrimonio))

/-- data.js lines 270 to 311: the scan registration state machine.  The
clock parameter stands for the single instant the call reads. -/
def registrarBipagem (s : InvState) (patrimonio : List Char) (agora : Nat) :
    InvState × Resultado :=
  let patrimonioLimpo := jsTrim patrimonio
  match buscarPorPatrimonio s patrimonioLimpo with
  | none => (s, Resultado.naoEncontrado patrimonioLimpo agora)
  | some item =>
    match getKey s.bipagens item.patrimonio with
    | some dataBip => (s, Resultado.jaBipado item.patrimonio item dataBip agora)
    | none =>
      let bip1 := setKey s.bipagens item.patrimonio agora
      let s1 := { s with bipagens := bip1, writes := s.writes ++ [WriteEvent.salvarBipagens bip1] }
      let s2 := { s1 with estatisticas := atualizarEstatisticas s1 }
      (s2, Resultado.sucesso item.patrimonio item agora)

/-- data.js lines 228 to 244: recomputes the bipados list from the live
collection and mark map, stores it back, then applies the optional
normalized substring filter. -/
def obterBipados (s : InvState) (busca : List Char) : InvState × List Item :=
  let lb := List.insertionSort (bipLe s.bipagens)
    (s.itens.filter (fun i => (getKey s.bipagens i.patrimonio).isSome))
  let s1 := { s with listaBipados := lb }
  if busca = [] then (s1, lb)
  else
    let termo := normalizar busca
    (s1, lb.filter (fun i =>
      jsIncludes (normalizar i.patrimonio) termo || jsIncludes (normalizar i.descricao) termo))

/-- data.js lines 198 to 206: the materialized localizados list, with the
optional normalized substring filter. -/
def obterLocalizados (s : InvState) (busca : List Char) : List Item :=
  if busca = [] then s.listaLocalizados
  else
    let termo := normalizar busca
    s.listaLocalizados.filter (fun i =>
      jsIncludes (normalizar i.patrimonio) termo || jsIncludes (normalizar i.descricao) termo)

/-- data.js lines 213 to 221: the materialized pendentes list, with the
optional normalized substring filter. -/
def obterPendentes (s : InvState) (busca : List Char) : List Item :=
  if busca = [] then s.listaPendentes
  else
    let termo := normalizar busca
    s.listaPendentes.filter (fun i =>
      jsIncludes (normalizar i.patrimonio) termo || jsIncludes (normalizar i.descricao) termo)

/-- data.js lines 258 to 261: refreshes the statistics cache and returns a
copy of it. -/
def obterEstatisticas (s : InvState) : Estatisticas × InvState :=
  let st := atualizarEstatisticas s
  (st, { s with estatisticas := st })

/-- data.js lines 346 to 352: inserts the entry at the front of the
history, drops the last entry when the length exceeds 50, and persists. -/
def adicionarHistorico (s : InvState) (entrada : Resultado) : InvState :=
  let h1 := entrada :: s.historico
  let h2 := if h1.length > 50 then h1.dropLast else h1
  { s with historico := h2, writes := s.writes ++ [WriteEvent.salvarHistorico h2] }

/-- data.js lines 359 to 361: the first limite entries of the history. -/
def obterHistorico (s : InvState) (limite : Nat) : List Resultado :=
  s.historico.take limite

/-- data.js lines 333 to 338: clears the mark map and the history, keeps
the collection and indices. -/
def limparBipagens (s : InvState) : InvState :=
  let s1 := { s with
    bipagens := []
    historico := []
    writes := s.writes ++ [WriteEvent.storageLimparBipagens] }
  { s1 with estatisticas := atualizarEstatisticas s1 }

/-- data.js lines 368 to 380: the explicit full reset, clearing the
collection, the mark map, the history and every index. -/
def limparTudo (s : InvState) : InvState :=
  let s1 : InvState := ⟨[], [], [], [], [], [], [], [],
    s.estatisticas, s.writes ++ [WriteEvent.storageLimparTudo]⟩
  { s1 with estatisticas := atualizarEstatisticas s1 }

/-- data.js lines 318 to 320: the mark timestamp of a patrimonio, or
null. -/
def verificarBipagem (s : InvState) (patrimonio : List Char) : Option Nat :=
  getKey s.bipagens patrimonio

/-- Pure located partition: a function of the asset collection alone. -/
def locPure (itens : List Item) : List Item :=
  List.insertionSort patLe (itens.filter temUorg)

/-- Pure pending partition: a function of the asset collection alone. -/
def pendPure (itens : List Item) : List Item :=
  List.insertionSort patLe (itens.filter (fun i => !temUorg i))

/-- Pure registered partition: a function of the asset collection and the
mark map alone. -/
def bipPure (itens : List Item) (bip : List (List Char × Nat)) : List Item :=
  List.insertionSort (bipLe bip)
    (itens.filter (fun i => (getKey bip i.patrimonio).isSome))

/-- The member names of the public API object returned by the Inventario
module (data.js lines 448 to 468). -/
def inventarioAPI : List String :=
  ["inicializar", "importar", "reconstruirIndices", "buscarPorPatrimonio",
   "obterPorCoordenacao", "listarCoordenacoes", "obterLocalizados",
   "obterPendentes", "obterBipados", "obterTodos", "obterEstatisticas",
   "registrarBipagem", "verificarBipagem", "obterBipagens", "limparBipagens",
   "adicionarHistorico", "obterHistorico", "limparTudo", "prepararExportacao"]

/-- The Inventario member the history panel invokes to attach an
observation to a registered scan (app.js, src/unnamed/part_000 line
551). -/
def chamadaObservacao : String := "atualizarObservacao"

/-- Example record of the spec example: blank destination unit. -/
def item123 : Item := mkItem ['1', '2', '3'] [] [] []

/-- Example record of the spec example: destination unit FIN. -/
def item456 : Item := mkItem ['4', '5', '6'] ['F', 'I', 'N'] [] []

/-- The state after importing the two example records into a fresh
state. -/
def estadoImportado : InvState := (importar estadoInicial [item123, item456]).1

/-- A record whose primary key is blank, violating the import contract. -/
def itemSemPatrimonio : Item := mkItem [] ['X'] [] []

/-- A state whose collection holds a blank-key record, indexed. -/
def estadoComBranco : InvState :=
  reconstruirIndices { estadoInicial with itens := [itemSemPatrimonio] }

/-- Raw import records carrying leading and trailing whitespace and a
duplicate normalized key. -/
def itensBrutos : List Item :=
  [mkItem [' ', 'a', 'b'] [] [] [], mkItem ['a', 'b', ' '] ['F'] [] [], item123]

/-- Fifty-one distinct history entries. -/
def entradasEx : List Resultado :=
  (List.range 51).map (fun k => Resultado.naoEncontrado [] k)

/-! ## Basic lemmas about trimming -/

theorem dropWhile_idem {α : Type} (p : α → Bool) (l : List α) :
    (l.dropWhile p).dropWhile p = l.dropWhile p := by
  induction l with
  | nil => rfl
  | cons a t ih =>
    by_cases h : p a
    · simp [List.dropWhile_cons, h, ih]
    · simp [List.dropWhile_cons, h]

theorem trimRight_trimRight (l : List Char) : trimRight (trimRight l) = trimRight l := by
  unfold trimRight
  rw [List.reverse_reverse, dropWhile_idem]

theorem head_dropWhile_false {α : Type} (p : α → Bool) (l : List α) :
    ∀ c, (l.dropWhile p).head? = some c → p c = false := by
  induction l with
  | nil => intro c h; simp at h
  | cons a t ih =>
    intro c h
    by_cases ha : p a
    · rw [List.dropWhile_cons, if_pos ha] at h
      exact ih c h
    · rw [List.dropWhile_cons, if_neg ha] at h
      simp only [List.head?_cons, Option.some.injEq] at h
      subst h
      simpa using ha

theorem dropWhile_of_head_false {α : Type} (p : α → Bool) (l : List α)
    (h : ∀ c, l.head? = some c → p c = false) : l.dropWhile p = l := by
  cases l with
  | nil => rfl
  | cons a t =>
    rw [List.dropWhile_cons, if_neg]
    simp [h a rfl]

theorem trimRight_prefixo (l : List Char) : trimRight l <+: l := by
  apply List.reverse_suffix.mp
  unfold trimRight
  rw [List.reverse_reverse]
  exact List.dropWhile_suffix Char.isWhitespace

theorem head_of_prefixo {α : Type} {x y : List α} (h : x <+: y) (hne : x ≠ []) :
    x.head? = y.head? := by
  obtain ⟨t, rfl⟩ := h
  cases x with
  | nil => exact absurd rfl hne
  | cons a s => rfl

theorem jsTrim_idem (l : List Char) : jsTrim (jsTrim l) = jsTrim l := by
  unfold jsTrim
  have h1 : trimLeft (trimRight (trimLeft l)) = trimRight (trimLeft l) := by
    show (trimRight (trimLeft l)).dropWhile Char.isWhitespace = trimRight (trimLeft l)
    apply dropWhile_of_head_false
    intro c hc
    have hne : trimRight (trimLeft l) ≠ [] := by
      intro hnil
      rw [hnil] at hc
      simp at hc
    have hh := head_of_prefixo (trimRight_prefixo (trimLeft l)) hne
    rw [hh] at hc
    exact head_dropWhile_false Char.isWhitespace l c hc
  rw [h1, trimRight_trimRight]

theorem sanitizar_eq_jsTrim (l : List Char) :
    sanitizar l = jsTrim (removeOnAttr (removeMatches 'j'
      ['a', 'v', 'a', 's', 'c', 'r', 'i', 'p', 't', ':'] (escapeHtml l))) := rfl

theorem jsTrim_sanitizar (l : List Char) : jsTrim (sanitizar l) = sanitizar l := by
  rw [sanitizar_eq_jsTrim, jsTrim_idem]

/-! ## Lemmas about the association-list model of objects and Maps -/

theorem getKey_setKey {β : Type} (m : List (List Char × β)) (k k2 : List Char) (v : β) :
    getKey (setKey m k v) k2 = if k = k2 then some v else getKey m k2 := by
  induction m with
  | nil => simp [setKey, getKey]
  | cons hd t ih =>
    obtain ⟨k3, v3⟩ := hd
    by_cases h3 : k3 = k
    · subst h3
      rw [setKey, if_pos rfl, getKey, getKey]
      by_cases h2 : k3 = k2
      · subst h2; simp
      · simp [h2]
    · rw [setKey, if_neg h3, getKey, getKey, ih]
      by_cases h2 : k3 = k2
      · subst h2
        rw [if_pos rfl, if_pos rfl, if_neg (fun hk => h3 hk.symm)]
      · rw [if_neg h2, if_neg h2]

theorem getLast?_cons_or {α : Type} (a : α) (l : List α) :
    (a :: l).getLast? = l.getLast?.or (some a) := by
  induction l generalizing a with
  | nil => rfl
  | cons b t ih =>
    rw [List.getLast?_cons_cons, ih b, Option.or_assoc, Option.or_some]

theorem getKey_foldl_setKey (key : Item → List Char) (itens : List Item) :
    ∀ (m0 : List (List Char × Item)) (k : List Char),
    getKey (itens.foldl (fun m i => setKey m (key i) i) m0) k
      = ((itens.filter (fun i => decide (key i = k))).getLast?).or (getKey m0 k) := by
  induction itens with
  | nil => intro m0 k; simp [List.filter_nil]
  | cons i t ih =>
    intro m0 k
    rw [List.foldl_cons, ih, getKey_setKey, List.filter_cons]
    by_cases h : key i = k
    · rw [if_pos h, if_pos (by simp [h]), getLast?_cons_or, Option.or_assoc]
      simp
    · rw [if_neg h, if_neg (by simp [h])]

/-! ## Projections of the rebuild pass -/

theorem rebuildStep_indexPatrimonio (bip : List (List Char × Nat)) (acc : Indices) (i : Item) :
    (rebuildStep bip acc i).indexPatrimonio
      = setKey acc.indexPatrimonio (jsUpper i.patrimonio) i := by
  unfold rebuildStep
  dsimp only
  split <;> split <;> split <;> rfl

theorem rebuildStep_listaLocalizados (bip : List (List Char × Nat)) (acc : Indices) (i : Item) :
    (rebuildStep bip acc i).listaLocalizados
      = acc.listaLocalizados ++ (if temUorg i then [i] else []) := by
  unfold rebuildStep
  dsimp only
  split <;> split <;> split <;> simp_all

theorem rebuildStep_listaPendentes (bip : List (List Char × Nat)) (acc : Indices) (i : Item) :
    (rebuildStep bip acc i).listaPendentes
      = acc.listaPendentes ++ (if temUorg i then [] else [i]) := by
  unfold rebuildStep
  dsimp only
  split <;> split <;> split <;> simp_all

theorem rebuildStep_listaBipados (bip : List (List Char × Nat)) (acc : Indices) (i : Item) :
    (rebuildStep bip acc i).listaBipados
      = acc.listaBipados ++ (if (getKey bip i.patrimonio).isSome then [i] else []) := by
  unfold rebuildStep
  dsimp only
  split <;> split <;> split <;> simp_all

theorem rebuild_indexPatrimonio (bip : List (List Char × Nat)) (itens : List Item) :
    ∀ acc : Indices,
    (itens.foldl (rebuildStep bip) acc).indexPatrimonio
      = itens.foldl (fun m i => setKey m (jsUpper i.patrimonio) i) acc.indexPatrimonio := by
  induction itens with
  | nil => intro acc; rfl
  | cons i t ih =>
    intro acc
    rw [List.foldl_cons, List.foldl_cons, ih, rebuildStep_indexPatrimonio]

theorem rebuild_listaLocalizados (bip : List (List Char × Nat)) (itens : List Item) :
    ∀ acc : Indices,
    (itens.foldl (rebuildStep bip) acc).listaLocalizados
      = acc.listaLocalizados ++ itens.filter temUorg := by
  induction itens with
  | nil => intro acc; simp
  | cons i t ih =>
    intro acc
    rw [List.foldl_cons, ih, rebuildStep_listaLocalizados, List.filter_cons, List.append_assoc]
    by_cases h : temUorg i
    · rw [if_pos h, if_pos h]; rfl
    · rw [if_neg h, if_neg (by simpa using h)]; rfl

theorem rebuild_listaPendentes (bip : List (List Char × Nat)) (itens : List Item) :
    ∀ acc : Indices,
    (itens.foldl (rebuildStep bip) acc).listaPendentes
      = acc.listaPendentes ++ itens.filter (fun i => !temUorg i) := by
  induction itens with
  | nil => intro acc; simp
  | cons i t ih =>
    intro acc
    rw [List.foldl_cons, ih, rebuildStep_listaPendentes, List.filter_cons, List.append_assoc]
    by_cases h : temUorg i
    · rw [if_pos h, if_neg (by simpa using h)]; rfl
    · rw [if_neg h, if_pos (by simpa using h)]; rfl

theorem rebuild_listaBipados (bip : List (List Char × Nat)) (itens : List Item) :
    ∀ acc : Indices,
    (itens.foldl (rebuildStep bip) acc).listaBipados
      = acc.listaBipados ++ itens.filter (fun i => (getKey bip i.patrimonio).isSome) := by
  induction itens with
  | nil => intro acc; simp
  | cons i t ih =>
    intro acc
    rw [List.foldl_cons, ih, rebuildStep_listaBipados, List.filter_cons, List.append_assoc]
    by_cases h : (getKey bip i.patrimonio).isSome
    · rw [if_pos h, if_pos h]; rfl
    · rw [if_neg h, if_neg (by simpa using h)]; rfl

/-! ## The comparator orders are total preorders -/

theorem lexLe_total : ∀ (x y : List Char), lexLe x y = true ∨ lexLe y x = true := by
  intro x
  induction x with
  | nil => intro y; left; rfl
  | cons a as ih =>
    intro y
    cases y with
    | nil => right; rfl
    | cons b bs =>
      simp only [lexLe]
      rcases lt_trichotomy a b with h | h | h
      · left; simp [h]
      · subst h
        rcases ih bs with h2 | h2
        · left; simp [lt_irrefl, h2]
        · right; simp [lt_irrefl, h2]
      · right; simp [h]

theorem lexLe_trans : ∀ (x y z : List Char),
    lexLe x y = true → lexLe y z = true → lexLe x z = true := by
  intro x
  induction x with
  | nil => intro y z h1 h2; rfl
  | cons a as ih =>
    intro y z h1 h2
    cases y with
    | nil => simp [lexLe] at h1
    | cons b bs =>
      cases z with
      | nil => simp [lexLe] at h2
      | cons c cs =>
        simp only [lexLe] at h1 h2 ⊢
        rcases lt_trichotomy a b with hab | hab | hab
        · rcases lt_trichotomy b c with hbc | hbc | hbc
          · simp [lt_trans hab hbc]
          · subst hbc; simp [hab]
          · rw [if_neg (asymm hbc), if_pos hbc] at h2
            simp at h2
        · subst hab
          rcases lt_trichotomy a c with hac | hac | hac
          · simp [hac]
          · subst hac
            rw [if_neg (lt_irrefl a), if_neg (lt_irrefl a)] at h1 h2 ⊢
            exact ih bs cs h1 h2
          · rw [if_neg (asymm hac), if_pos hac] at h2
            simp at h2
        · rw [if_neg (asymm hab), if_pos hab] at h1
          simp at h1

theorem patLe_isTotal : IsTotal Item patLe :=
  ⟨fun a b => lexLe_total a.patrimonio b.patrimonio⟩

theorem patLe_isTrans : IsTrans Item patLe :=
  ⟨fun a b c h1 h2 => lexLe_trans a.patrimonio b.patrimonio c.patrimonio h1 h2⟩

theorem bipLe_isTotal (bip : List (List Char × Nat)) : IsTotal Item (bipLe bip) :=
  ⟨fun a b => Nat.le_total (dataDe bip b) (dataDe bip a)⟩

theorem bipLe_isTrans (bip : List (List Char × Nat)) : IsTrans Item (bipLe bip) :=
  ⟨fun _ _ _ h1 h2 => Nat.le_trans h2 h1⟩

theorem sorted_insertionSort_patLe (l : List Item) :
    List.Sorted patLe (List.insertionSort patLe l) := by
  haveI := patLe_isTotal
  haveI := patLe_isTrans
  exact List.sorted_insertionSort patLe l

theorem sorted_insertionSort_bipLe (bip : List (List Char × Nat)) (l : List Item) :
    List.Sorted (bipLe bip) (List.insertionSort (bipLe bip) l) := by
  haveI := bipLe_isTotal bip
  haveI := bipLe_isTrans bip
  exact List.sorted_insertionSort (bipLe bip) l

/-! ## Shape of the state after a rebuild -/

theorem reconstruir_itens (s : InvState) : (reconstruirIndices s).itens = s.itens := rfl

theorem reconstruir_bipagens (s : InvState) : (reconstruirIndices s).bipagens = s.bipagens := rfl

theorem reconstruir_historico (s : InvState) :
    (reconstruirIndices s).historico = s.historico := rfl

theorem reconstruir_writes (s : InvState) : (reconstruirIndices s).writes = s.writes := rfl

theorem reconstruir_listaLocalizados (s : InvState) :
    (reconstruirIndices s).listaLocalizados = locPure s.itens := by
  unfold reconstruirIndices locPure
  dsimp only
  rw [rebuild_listaLocalizados]
  rfl

theorem reconstruir_listaPendentes (s : InvState) :
    (reconstruirIndices s).listaPendentes = pendPure s.itens := by
  unfold reconstruirIndices pendPure
  dsimp only
  rw [rebuild_listaPendentes]
  rfl

theorem reconstruir_listaBipados (s : InvState) :
    (reconstruirIndices s).listaBipados = bipPure s.itens s.bipagens := by
  unfold reconstruirIndices bipPure
  dsimp only
  rw [rebuild_listaBipados]
  rfl

theorem reconstruir_indexPatrimonio (s : InvState) :
    (reconstruirIndices s).indexPatrimonio
      = s.itens.foldl (fun m i => setKey m (jsUpper i.patrimonio) i) [] := by
  unfold reconstruirIndices
  dsimp only
  rw [rebuild_indexPatrimonio]

theorem buscar_reconstruir (s : InvState) (id : List Char) (hne : id ≠ []) :
    buscarPorPatrimonio (reconstruirIndices s) id
      = (s.itens.filter (fun i =>
          decide (jsUpper i.patrimonio = jsUpper (jsTrim id)))).getLast? := by
  unfold buscarPorPatrimonio
  rw [if_neg hne, reconstruir_indexPatrimonio, getKey_foldl_setKey]
  simp [getKey]

/-! ## History lemmas -/

theorem adicionarHistorico_historico (s : InvState) (e : Resultado)
    (h : s.historico.length ≤ 50) :
    (adicionarHistorico s e).historico = (e :: s.historico).take 50 := by
  unfold adicionarHistorico
  dsimp only
  by_cases hlen : (e :: s.historico).length > 50
  · rw [if_pos hlen]
    have h50 : s.historico.length = 50 := by
      simp only [List.length_cons] at hlen
      omega
    rw [List.dropLast_eq_take]
    simp [h50]
  · rw [if_neg hlen, List.take_of_length_le (Nat.le_of_not_lt hlen)]

theorem take_append_take {α : Type} (n : Nat) (xs ys : List α) :
    (xs ++ ys.take n).take n = (xs ++ ys).take n := by
  rw [List.take_append_eq_append_take, List.take_append_eq_append_take, List.take_take,
    inf_eq_left.mpr (Nat.sub_le n xs.length)]

theorem historico_foldl (es : List Resultado) :
    ∀ s : InvState, s.historico.length ≤ 50 →
    (es.foldl adicionarHistorico s).historico = (es.reverse ++ s.historico).take 50 := by
  induction es with
  | nil =>
    intro s h
    simp only [List.foldl_nil, List.reverse_nil, List.nil_append]
    rw [List.take_of_length_le h]
  | cons e t ih =>
    intro s h
    rw [List.foldl_cons]
    have h1 : (adicionarHistorico s e).historico.length ≤ 50 := by
      rw [adicionarHistorico_historico s e h, List.length_take]
      omega
    rw [ih _ h1, adicionarHistorico_historico s e h, take_append_take,
      List.reverse_cons, List.append_assoc]
    rfl

/-! ## The rounding of the statistics percentage -/

theorem mathRound100_eq_round (l t : Nat) (ht : t ≠ 0) :
    (mathRound100 l t : ℤ) = round ((100 * l : ℚ) / t) := by
  rw [round_eq]
  have hq : (t : ℚ) ≠ 0 := by exact_mod_cast ht
  have h1 : (100 * l : ℚ) / t + 1 / 2 = ((200 * l + t : ℕ) : ℤ) / ((2 * t : ℕ) : ℚ) := by
    push_cast
    field_simp
    ring
  rw [h1, Rat.floor_intCast_div_natCast]
  unfold mathRound100
  rw [Int.natCast_div]

/-! ## Shape of the three outcomes of registrarBipagem -/

theorem buscar_eq_of_index (s t : InvState) (x : List Char)
    (h : s.indexPatrimonio = t.indexPatrimonio) :
    buscarPorPatrimonio s x = buscarPorPatrimonio t x := by
  unfold buscarPorPatrimonio
  rw [h]

theorem registrar_miss (s : InvState) (p : List Char) (agora : Nat)
    (h : buscarPorPatrimonio s (jsTrim p) = none) :
    registrarBipagem s p agora = (s, Resultado.naoEncontrado (jsTrim p) agora) := by
  unfold registrarBipagem
  dsimp only
  rw [h]

theorem registrar_hit_marcado (s : InvState) (p : List Char) (agora d : Nat) (item : Item)
    (hfind : buscarPorPatrimonio s (jsTrim p) = some item)
    (hmark : getKey s.bipagens item.patrimonio = some d) :
    registrarBipagem s p agora = (s, Resultado.jaBipado item.patrimonio item d agora) := by
  unfold registrarBipagem
  dsimp only
  rw [hfind]
  dsimp only
  rw [hmark]

theorem registrar_hit_novo (s : InvState) (p : List Char) (agora : Nat) (item : Item)
    (hfind : buscarPorPatrimonio s (jsTrim p) = some item)
    (hfresh : getKey s.bipagens item.patrimonio = none) :
    (registrarBipagem s p agora).2 = Resultado.sucesso item.patrimonio item agora ∧
    (registrarBipagem s p agora).1.itens = s.itens ∧
    (registrarBipagem s p agora).1.bipagens = setKey s.bipagens item.patrimonio agora ∧
    (registrarBipagem s p agora).1.historico = s.historico ∧
    (registrarBipagem s p agora).1.indexPatrimonio = s.indexPatrimonio ∧
    (registrarBipagem s p agora).1.indexPorCoordenacao = s.indexPorCoordenacao ∧
    (registrarBipagem s p agora).1.listaLocalizados = s.listaLocalizados ∧
    (registrarBipagem s p agora).1.listaPendentes = s.listaPendentes ∧
    (registrarBipagem s p agora).1.listaBipados = s.listaBipados ∧
    (registrarBipagem s p agora).1.writes
      = s.writes ++ [WriteEvent.salvarBipagens (setKey s.bipagens item.patrimonio agora)] := by
  unfold registrarBipagem
  dsimp only
  rw [hfind]
  dsimp only
  rw [hfresh]
  exact ⟨rfl, rfl, rfl, rfl, rfl, rfl, rfl, rfl, rfl, rfl⟩

/-! ## Claim theorems -/

/-- C7: for every state and every scanned identifier whose trimmed
uppercased form matches no asset in the primary index, registrarBipagem
returns the nao_encontrado outcome carrying the raw trimmed id with no
asset snapshot attached, and leaves the whole state unchanged: no
registration mark is created, no persistence write occurs, and the
indices, partitions and statistics inputs are untouched. -/
theorem registrar_nao_encontrado_sem_efeito (s : InvState) (p : List Char) (agora : Nat)
    (h : buscarPorPatrimonio s (jsTrim p) = none) :
    registrarBipagem s p agora = (s, Resultado.naoEncontrado (jsTrim p) agora) :=
  registrar_miss s p agora h

/-- Witness for C7: scanning an identifier absent from the imported
example collection. -/
theorem registrar_nao_encontrado_sem_efeito_witness :
    buscarPorPatrimonio estadoImportado (jsTrim ['9', '9', '9']) = none ∧
    registrarBipagem estadoImportado ['9', '9', '9'] 5
      = (estadoImportado, Resultado.naoEncontrado (jsTrim ['9', '9', '9']) 5) :=
  ⟨by decide, registrar_nao_encontrado_sem_efeito estadoImportado ['9', '9', '9'] 5 (by decide)⟩

/-- C10: for every state, including one whose collection holds a record
with a blank patrimonio, and for every identifier that is empty or
whitespace-only after trimming, registrarBipagem returns the
nao_encontrado outcome and leaves the state unchanged, and
buscarPorPatrimonio returns null on the blank input in every state, so
without consulting the index. -/
theorem registrar_entrada_branca (s : InvState) (p : List Char) (agora : Nat)
    (h : jsTrim p = []) :
    registrarBipagem s p agora = (s, Resultado.naoEncontrado [] agora) ∧
    (∀ t : InvState, buscarPorPatrimonio t [] = none) := by
  constructor
  · have hb : buscarPorPatrimonio s (jsTrim p) = none := by
      rw [h]
      unfold buscarPorPatrimonio
      rw [if_pos rfl]
    have := registrar_miss s p agora hb
    rw [h] at this
    exact this
  · intro t
    unfold buscarPorPatrimonio
    rw [if_pos rfl]

/-- Witness for C10: a whitespace-only scan against a state whose
collection holds a blank-key record (which the rebuild has indexed under
the empty key). -/
theorem registrar_entrada_branca_witness :
    jsTrim [' ', ' '] = [] ∧
    (registrarBipagem estadoComBranco [' ', ' '] 3
        = (estadoComBranco, Resultado.naoEncontrado [] 3) ∧
      (∀ t : InvState, buscarPorPatrimonio t [] = none)) :=
  ⟨by decide, registrar_entrada_branca estadoComBranco [' ', ' '] 3 (by decide)⟩

/-- C9: the history panel invokes Inventario.atualizarObservacao to
attach an observation, but the public API object returned by the
Inventario module has no such member, while the neighbouring members the
panel also uses do exist; the observation-attachment operation specified
for the scan state machine is absent from the module, so the call throws
and no observation overlay exists in the core. -/
theorem observacao_ausente_da_api :
    chamadaObservacao ∉ inventarioAPI ∧
    "adicionarHistorico" ∈ inventarioAPI ∧
    "registrarBipagem" ∈ inventarioAPI ∧
    "obterHistorico" ∈ inventarioAPI := by decide

/-- C2: registering a fresh asset twice in sequence returns sucesso then
ja_bipado; the second call returns the state of the first call unchanged,
so it creates no mark, overwrites no mark and performs no persistence
write, and the mark timestamp observed after the second call is the
instant of the first call. -/
theorem registrar_duas_vezes (s : InvState) (p : List Char) (n1 n2 : Nat) (item : Item)
    (hfind : buscarPorPatrimonio s (jsTrim p) = some item)
    (hfresh : getKey s.bipagens item.patrimonio = none) :
    (registrarBipagem s p n1).2 = Resultado.sucesso item.patrimonio item n1 ∧
    (registrarBipagem (registrarBipagem s p n1).1 p n2).2
      = Resultado.jaBipado item.patrimonio item n1 n2 ∧
    (registrarBipagem (registrarBipagem s p n1).1 p n2).1 = (registrarBipagem s p n1).1 ∧
    getKey (registrarBipagem (registrarBipagem s p n1).1 p n2).1.bipagens item.patrimonio
      = some n1 ∧
    (registrarBipagem (registrarBipagem s p n1).1 p n2).1.writes
      = (registrarBipagem s p n1).1.writes := by
  obtain ⟨hr, hitens, hb, hh, hx, hxc, hl, hpend, hlb, hw⟩ :=
    registrar_hit_novo s p n1 item hfind hfresh
  have hfind2 : buscarPorPatrimonio (registrarBipagem s p n1).1 (jsTrim p) = some item := by
    rw [buscar_eq_of_index (registrarBipagem s p n1).1 s (jsTrim p) hx]
    exact hfind
  have hmark : getKey (registrarBipagem s p n1).1.bipagens item.patrimonio = some n1 := by
    rw [hb, getKey_setKey, if_pos rfl]
  have h2 := registrar_hit_marcado (registrarBipagem s p n1).1 p n2 n1 item hfind2 hmark
  refine ⟨hr, ?_, ?_, ?_, ?_⟩
  · rw [h2]
  · rw [h2]
  · rw [h2]
    exact hmark
  · rw [h2]

/-- Witness for C2: double scan of the example asset 123 after the
example import. -/
theorem registrar_duas_vezes_witness :
    (buscarPorPatrimonio estadoImportado (jsTrim ['1', '2', '3']) = some item123 ∧
      getKey estadoImportado.bipagens item123.patrimonio = none) ∧
    ((registrarBipagem estadoImportado ['1', '2', '3'] 11).2
        = Resultado.sucesso item123.patrimonio item123 11 ∧
      (registrarBipagem (registrarBipagem estadoImportado ['1', '2', '3'] 11).1
          ['1', '2', '3'] 12).2
        = Resultado.jaBipado item123.patrimonio item123 11 12 ∧
      (registrarBipagem (registrarBipagem estadoImportado ['1', '2', '3'] 11).1
          ['1', '2', '3'] 12).1 = (registrarBipagem estadoImportado ['1', '2', '3'] 11).1 ∧
      getKey (registrarBipagem (registrarBipagem estadoImportado ['1', '2', '3'] 11).1
          ['1', '2', '3'] 12).1.bipagens item123.patrimonio = some 11 ∧
      (registrarBipagem (registrarBipagem estadoImportado ['1', '2', '3'] 11).1
          ['1', '2', '3'] 12).1.writes
        = (registrarBipagem estadoImportado ['1', '2', '3'] 11).1.writes) :=
  ⟨⟨by decide, by decide⟩,
    registrar_duas_vezes estadoImportado ['1', '2', '3'] 11 12 item123
      (by decide) (by decide)⟩

/-- C4: importing replaces the asset collection wholesale with the
sanitized records, independent of the previous collection; the mark map
and the history are untouched; the returned summary counts equal the
sizes of the new collection and of its two materialized partitions; and
the explicit full reset clears the collection, the mark map and the
history. -/
theorem importar_substitui_e_preserva (s : InvState) (novos : List Item) :
    (importar s novos).1.itens = novos.map sanitizarObjeto ∧
    (importar s novos).1.bipagens = s.bipagens ∧
    (importar s novos).1.historico = s.historico ∧
    (importar s novos).2.total = (importar s novos).1.itens.length ∧
    (importar s novos).2.localizados = (importar s novos).1.listaLocalizados.length ∧
    (importar s novos).2.pendentes = (importar s novos).1.listaPendentes.length ∧
    (limparTudo s).itens = [] ∧
    (limparTudo s).bipagens = [] ∧
    (limparTudo s).historico = [] := by
  exact ⟨rfl, rfl, rfl, rfl, rfl, rfl, rfl, rfl, rfl⟩

/-- C5: at every state the statistics are the sizes of the collection,
of the two materialized partitions and of the global mark map, and the
percentage is the half-up rounding of 100 times the located share, zero
on an empty collection; importing the two spec example records yields
total 2, located 1, pending 1 and percentage 50. -/
theorem estatisticas_corretas (s : InvState) :
    (obterEstatisticas s).1.total = s.itens.length ∧
    (obterEstatisticas s).1.localizados = s.listaLocalizados.length ∧
    (obterEstatisticas s).1.pendentes = s.listaPendentes.length ∧
    (obterEstatisticas s).1.bipados = s.bipagens.length ∧
    (s.itens.length = 0 → (obterEstatisticas s).1.percentual = 0) ∧
    (s.itens.length ≠ 0 →
      ((obterEstatisticas s).1.percentual : ℤ)
        = round ((100 * s.listaLocalizados.length : ℚ) / s.itens.length)) ∧
    (obterEstatisticas (importar estadoInicial [item123, item456]).1).1
      = ⟨2, 1, 1, 0, 50⟩ := by
  refine ⟨rfl, rfl, rfl, rfl, ?_, ?_, by decide⟩
  · intro h
    unfold obterEstatisticas atualizarEstatisticas
    dsimp only
    rw [h]
    rfl
  · intro h
    unfold obterEstatisticas atualizarEstatisticas
    dsimp only
    rw [if_pos (Nat.pos_of_ne_zero h)]
    exact mathRound100_eq_round s.listaLocalizados.length s.itens.length h

/-- Witness for C5: the percentage of the example state is the rounding
of the rational located share. -/
theorem estatisticas_corretas_witness :
    estadoImportado.itens.length ≠ 0 ∧
    ((obterEstatisticas estadoImportado).1.percentual : ℤ)
      = round ((100 * estadoImportado.listaLocalizados.length : ℚ)
          / estadoImportado.itens.length) :=
  ⟨by decide, (estatisticas_corretas estadoImportado).2.2.2.2.2.1 (by decide)⟩

/-- C6: the history log inserts at the front, never exceeds 50 entries,
drops exactly the oldest entry when full, and obterHistorico returns the
first n entries with n capped to the length; after more than 50 appends
the query with limit 1000 returns exactly the 50 most recent entries,
most recent first. -/
theorem historico_limitado :
    (∀ (s : InvState) (e : Resultado), s.historico.length ≤ 50 →
      (adicionarHistorico s e).historico = (e :: s.historico).take 50 ∧
      (adicionarHistorico s e).historico.length ≤ 50 ∧
      (adicionarHistorico s e).historico.head? = some e ∧
      (s.historico.length = 50 →
        (adicionarHistorico s e).historico = (e :: s.historico).dropLast)) ∧
    (∀ (s : InvState) (n : Nat),
      obterHistorico s n = s.historico.take n ∧
      (obterHistorico s n).length = min n s.historico.length) ∧
    (∀ es : List Resultado, 50 ≤ es.length →
      (obterHistorico (es.foldl adicionarHistorico estadoInicial) 1000).length = 50 ∧
      obterHistorico (es.foldl adicionarHistorico estadoInicial) 1000
        = es.reverse.take 50) := by
  refine ⟨?_, ?_, ?_⟩
  · intro s e h
    have ht := adicionarHistorico_historico s e h
    refine ⟨ht, ?_, ?_, ?_⟩
    · rw [ht, List.length_take]
      omega
    · rw [ht]
      rw [List.take_succ_cons]
      rfl
    · intro h50
      rw [ht, List.dropLast_eq_take]
      congr 1
      simp [h50]
  · intro s n
    refine ⟨rfl, ?_⟩
    unfold obterHistorico
    rw [List.length_take]
  · intro es hes
    have hfold := historico_foldl es estadoInicial (by simp [estadoInicial])
    have hh : (es.foldl adicionarHistorico estadoInicial).historico = es.reverse.take 50 := by
      rw [hfold]
      simp [estadoInicial]
    constructor
    · unfold obterHistorico
      rw [hh, List.take_take, List.length_take]
      simp
      omega
    · unfold obterHistorico
      rw [hh, List.take_take]
      congr 1

/-- Witness for C6: fifty-one appends leave exactly the 50 most recent
entries, most recent first. -/
theorem historico_limitado_witness :
    50 ≤ entradasEx.length ∧
    ((obterHistorico (entradasEx.foldl adicionarHistorico estadoInicial) 1000).length = 50 ∧
      obterHistorico (entradasEx.foldl adicionarHistorico estadoInicial) 1000
        = entradasEx.reverse.take 50) :=
  ⟨by decide, historico_limitado.2.2 entradasEx (by decide)⟩

/-- C8: after every rebuild the localizados and pendentes lists are
sorted ascending by patrimonio in the lexicographic order, and the
bipados list is sorted descending by registration timestamp, most
recently registered first. -/
theorem listas_ordenadas (s : InvState) :
    List.Pairwise (fun a b => lexLe a.patrimonio b.patrimonio = true)
      (reconstruirIndices s).listaLocalizados ∧
    List.Pairwise (fun a b => lexLe a.patrimonio b.patrimonio = true)
      (reconstruirIndices s).listaPendentes ∧
    List.Pairwise (fun a b => dataDe s.bipagens b ≤ dataDe s.bipagens a)
      (reconstruirIndices s).listaBipados := by
  refine ⟨?_, ?_, ?_⟩
  · rw [reconstruir_listaLocalizados]
    exact sorted_insertionSort_patLe (s.itens.filter temUorg)
  · rw [reconstruir_listaPendentes]
    exact sorted_insertionSort_patLe (s.itens.filter (fun i => !temUorg i))
  · rw [reconstruir_listaBipados]
    exact sorted_insertionSort_bipLe s.bipagens
      (s.itens.filter (fun i => (getKey s.bipagens i.patrimonio).isSome))

/-- C3: at every state, after a rebuild the located and pending lists
equal pure functions of the current collection; every imported asset is
in exactly one of the two according to the destination-unit predicate;
and obterBipados recomputes its result from the live collection and mark
map on every query, never reading the materialized list, so a mark
created after the last rebuild is reflected without a rebuild. -/
theorem particoes_sem_deriva (s : InvState) :
    (reconstruirIndices s).listaLocalizados = locPure s.itens ∧
    (reconstruirIndices s).listaPendentes = pendPure s.itens ∧
    (∀ a ∈ s.itens,
      (a ∈ (reconstruirIndices s).listaLocalizados ↔ temUorg a = true) ∧
      (a ∈ (reconstruirIndices s).listaPendentes ↔ temUorg a = false) ∧
      ¬(a ∈ (reconstruirIndices s).listaLocalizados ∧
        a ∈ (reconstruirIndices s).listaPendentes)) ∧
    (∀ (t : InvState) (busca : List Char),
      (obterBipados t busca).2 =
        if busca = [] then bipPure t.itens t.bipagens
        else (bipPure t.itens t.bipagens).filter (fun i =>
          jsIncludes (normalizar i.patrimonio) (normalizar busca) ||
          jsIncludes (normalizar i.descricao) (normalizar busca))) ∧
    (∀ (t : InvState) (a : Item),
      a ∈ (obterBipados t []).2 ↔
        a ∈ t.itens ∧ (getKey t.bipagens a.patrimonio).isSome = true) := by
  have hloc := reconstruir_listaLocalizados s
  have hpend := reconstruir_listaPendentes s
  have hbip : ∀ (t : InvState) (busca : List Char),
      (obterBipados t busca).2 =
        if busca = [] then bipPure t.itens t.bipagens
        else (bipPure t.itens t.bipagens).filter (fun i =>
          jsIncludes (normalizar i.patrimonio) (normalizar busca) ||
          jsIncludes (normalizar i.descricao) (normalizar busca)) := by
    intro t busca
    unfold obterBipados bipPure
    by_cases hbu : busca = [] <;> simp [hbu]
  refine ⟨hloc, hpend, ?_, hbip, ?_⟩
  · intro a ha
    have h1 : a ∈ (reconstruirIndices s).listaLocalizados ↔ temUorg a = true := by
      rw [hloc]
      unfold locPure
      rw [List.mem_insertionSort, List.mem_filter]
      exact ⟨fun h => h.2, fun h => ⟨ha, h⟩⟩
    have h2 : a ∈ (reconstruirIndices s).listaPendentes ↔ temUorg a = false := by
      rw [hpend]
      unfold pendPure
      rw [List.mem_insertionSort, List.mem_filter]
      constructor
      · intro h
        simpa using h.2
      · intro h
        exact ⟨ha, by simpa using h⟩
    refine ⟨h1, h2, ?_⟩
    rintro ⟨hin1, hin2⟩
    rw [h1] at hin1
    rw [h2] at hin2
    rw [hin1] at hin2
    exact Bool.noConfusion hin2
  · intro t a
    rw [hbip t []]
    rw [if_pos rfl]
    unfold bipPure
    rw [List.mem_insertionSort, List.mem_filter]

/-- Witness for C3: the located example asset sits in exactly the located
partition of the rebuilt example state. -/
theorem particoes_sem_deriva_witness :
    item456 ∈ estadoImportado.itens ∧
    ((item456 ∈ (reconstruirIndices estadoImportado).listaLocalizados ↔
        temUorg item456 = true) ∧
      (item456 ∈ (reconstruirIndices estadoImportado).listaPendentes ↔
        temUorg item456 = false) ∧
      ¬(item456 ∈ (reconstruirIndices estadoImportado).listaLocalizados ∧
        item456 ∈ (reconstruirIndices estadoImportado).listaPendentes)) :=
  ⟨by decide, (particoes_sem_deriva estadoImportado).2.2.1 item456 (by decide)⟩

/-- C1: for every import under the non-blank-key contract of the import
pipeline, the rebuilt primary index keys every stored asset by its
uppercased patrimonio, which coincides with the uppercased trimmed
patrimonio because the import sanitization trims every field; the lookup
normalization therefore derives exactly the rebuild key on every stored
asset, lookup of the patrimonio of any imported asset returns the last
imported asset sharing its normalized key, and lookup fails for every
identifier whose normalized key no imported asset carries. -/
theorem importar_buscar_consistente (s : InvState) (novos : List Item)
    (hnb : ∀ r ∈ novos, sanitizar r.patrimonio ≠ []) :
    (∀ a ∈ (importar s novos).1.itens,
      jsUpper a.patrimonio = jsUpper (jsTrim a.patrimonio)) ∧
    (∀ a ∈ (importar s novos).1.itens,
      buscarPorPatrimonio (importar s novos).1 a.patrimonio
        = ((importar s novos).1.itens.filter (fun b =>
            decide (jsUpper b.patrimonio = jsUpper a.patrimonio))).getLast?) ∧
    (∀ a ∈ (importar s novos).1.itens, ∃ b,
      buscarPorPatrimonio (importar s novos).1 a.patrimonio = some b ∧
      b ∈ (importar s novos).1.itens ∧ jsUpper b.patrimonio = jsUpper a.patrimonio) ∧
    (∀ id : List Char,
      (∀ a ∈ (importar s novos).1.itens, jsUpper a.patrimonio ≠ jsUpper (jsTrim id)) →
      buscarPorPatrimonio (importar s novos).1 id = none) := by
  have hitens : (importar s novos).1.itens = novos.map sanitizarObjeto := rfl
  have hb : ∀ id : List Char, id ≠ [] →
      buscarPorPatrimonio (importar s novos).1 id
        = ((novos.map sanitizarObjeto).filter (fun i =>
            decide (jsUpper i.patrimonio = jsUpper (jsTrim id)))).getLast? := by
    intro id hne
    exact buscar_reconstruir { s with itens := novos.map sanitizarObjeto, writes := s.writes ++ [WriteEvent.salvarInventario (novos.map sanitizarObjeto)] } id hne
  have hpart1 : ∀ a ∈ (importar s novos).1.itens,
      jsUpper a.patrimonio = jsUpper (jsTrim a.patrimonio) := by
    intro a ha
    rw [hitens] at ha
    obtain ⟨r, hr, rfl⟩ := List.mem_map.mp ha
    show jsUpper (sanitizar r.patrimonio) = jsUpper (jsTrim (sanitizar r.patrimonio))
    rw [jsTrim_sanitizar]
  have hne : ∀ a ∈ (importar s novos).1.itens, a.patrimonio ≠ [] := by
    intro a ha
    rw [hitens] at ha
    obtain ⟨r, hr, rfl⟩ := List.mem_map.mp ha
    exact hnb r hr
  have hpart2 : ∀ a ∈ (importar s novos).1.itens,
      buscarPorPatrimonio (importar s novos).1 a.patrimonio
        = ((importar s novos).1.itens.filter (fun b =>
            decide (jsUpper b.patrimonio = jsUpper a.patrimonio))).getLast? := by
    intro a ha
    have h := hb a.patrimonio (hne a ha)
    rw [← hpart1 a ha] at h
    exact h
  refine ⟨hpart1, hpart2, ?_, ?_⟩
  · intro a ha
    have h2 := hpart2 a ha
    have hself : a ∈ (importar s novos).1.itens.filter (fun b =>
        decide (jsUpper b.patrimonio = jsUpper a.patrimonio)) :=
      List.mem_filter.mpr ⟨ha, by simp⟩
    have hfne : (importar s novos).1.itens.filter (fun b =>
        decide (jsUpper b.patrimonio = jsUpper a.patrimonio)) ≠ [] := by
      intro hnil
      rw [hnil] at hself
      simp at hself
    obtain ⟨c, hc⟩ : ∃ c, ((importar s novos).1.itens.filter (fun b =>
        decide (jsUpper b.patrimonio = jsUpper a.patrimonio))).getLast? = some c := by
      cases hgl : ((importar s novos).1.itens.filter (fun b =>
          decide (jsUpper b.patrimonio = jsUpper a.patrimonio))).getLast? with
      | none => exact absurd (List.getLast?_eq_none_iff.mp hgl) hfne
      | some c => exact ⟨c, rfl⟩
    have hcmem : c ∈ (importar s novos).1.itens.filter (fun b =>
        decide (jsUpper b.patrimonio = jsUpper a.patrimonio)) :=
      List.mem_of_mem_getLast? (by rw [hc]; exact Option.mem_def.mpr rfl)
    obtain ⟨hcmem1, hcmem2⟩ := List.mem_filter.mp hcmem
    exact ⟨c, by rw [h2]; exact hc, hcmem1, by simpa using hcmem2⟩
  · intro id hmiss
    by_cases hid : id = []
    · subst hid
      unfold buscarPorPatrimonio
      rw [if_pos rfl]
    · have h := hb id hid
      rw [hitens] at hmiss
      have hfnil : (novos.map sanitizarObjeto).filter (fun i =>
          decide (jsUpper i.patrimonio = jsUpper (jsTrim id))) = [] := by
        rw [List.filter_eq_nil_iff]
        intro a ha
        simpa using hmiss a ha
      rw [h, hfnil]
      rfl

/-- Witness for C1: importing records whose keys carry surrounding
whitespace and collide after normalization. -/
theorem importar_buscar_consistente_witness :
    (∀ r ∈ itensBrutos, sanitizar r.patrimonio ≠ []) ∧
    ((∀ a ∈ (importar estadoInicial itensBrutos).1.itens,
        jsUpper a.patrimonio = jsUpper (jsTrim a.patrimonio)) ∧
      (∀ a ∈ (importar estadoInicial itensBrutos).1.itens,
        buscarPorPatrimonio (importar estadoInicial itensBrutos).1 a.patrimonio
          = ((importar estadoInicial itensBrutos).1.itens.filter (fun b =>
              decide (jsUpper b.patrimonio = jsUpper a.patrimonio))).getLast?) ∧
      (∀ a ∈ (importar estadoInicial itensBrutos).1.itens, ∃ b,
        buscarPorPatrimonio (importar estadoInicial itensBrutos).1 a.patrimonio = some b ∧
        b ∈ (importar estadoInicial itensBrutos).1.itens ∧
        jsUpper b.patrimonio = jsUpper a.patrimonio) ∧
      (∀ id : List Char,
        (∀ a ∈ (importar estadoInicial itensBrutos).1.itens,
          jsUpper a.patrimonio ≠ jsUpper (jsTrim id)) →
        buscarPorPatrimonio (importar estadoInicial itensBrutos).1 id = none)) :=
  ⟨by decide, importar_buscar_consistente estadoInicial itensBrutos (by decide)⟩
